import Mathlib

/-!
Shallow embedding of `recplot_database_prep_revisions_bams.py`: the reference
catalog (`sqldb_creation`), the alignment-record parsers (`save_reads_mapped`,
blast / SAM / BAM branches), the sample store update (`add_sample`), the
matrix builder (`prepare_numpy_matrices`) and the matrix filler
(`fill_matrices`).  Python strings are `List Char`, machine integers are
`ℕ`/`ℤ`, Python floats are `ℚ` (every float value the claims reach is dyadic,
so binary floating point computes it exactly), numpy matrices are
`List (List ℤ)`, and code that can raise returns `Option`/`ParseResult`
values whose failure constructor models the exception.
-/

namespace Recplot

/-- Python's `bisect.bisect_left`: the leftmost insertion point of `x` in `l`,
i.e. the length of the longest prefix whose elements are all `< x` (on a
sorted list this is the library's documented result). -/
def bisect_left {α : Type} [LinearOrder α] : List α → α → ℕ
  | [], _ => 0
  | a :: rest, x => if a < x then bisect_left rest x + 1 else 0

/-- Python's `bisect.bisect_right`: the rightmost insertion point of `x`,
the length of the longest prefix whose elements are all `≤ x`. -/
def bisect_right {α : Type} [LinearOrder α] : List α → α → ℕ
  | [], _ => 0
  | a :: rest, x => if a ≤ x then bisect_right rest x + 1 else 0

/-- The identity-break loop shared by `prepare_matrices` (lines 574-579) and
`prepare_numpy_matrices` (lines 478-483) of the source:
`while current_break > id_lower: id_breaks.append(current_break); current_break -= bin_height`.
The `ℕ` argument is recursion fuel; the loop stops by itself as soon as
`cur ≤ lower`, so any fuel at least the number of iterations yields the
Python result. -/
def breaks_loop (step lower : ℚ) : ℕ → ℚ → List ℚ
  | 0, _ => []
  | n + 1, cur => if lower < cur then cur :: breaks_loop step lower n (cur - step) else []

/-- The ascending identity boundaries
`id_breaks = np.array(id_breaks[::-1])`: the descending list produced by
`breaks_loop` starting at 100, reversed. -/
def id_breaks (step lower : ℚ) : List ℚ :=
  (breaks_loop step lower 4096 100).reverse

/-- Lines 500-502 of `prepare_numpy_matrices`:
`num_bins = int(contig_length / width); if num_bins < 1: num_bins = 1`. -/
def num_bins (len width : ℕ) : ℕ :=
  let nb := len / width
  if nb < 1 then 1 else nb

/-- Line 503:
`starts = np.linspace(1, contig_length, num = num_bins, dtype = np.uint64, endpoint = False)`,
the points `1 + k * (len - 1) / num_bins` for `k < num_bins`, truncated to
integers by the `uint64` cast. -/
def bin_starts (len width : ℕ) : List ℤ :=
  (List.range (num_bins len width)).map
    (fun (k : ℕ) => ⌊(1 : ℚ) + (k : ℚ) * ((len : ℚ) - 1) / (num_bins len width : ℚ)⌋)

/-- Line 504: `ends = np.append(starts[1:]-1, contig_length)`. -/
def bin_ends (len width : ℕ) : List ℤ :=
  ((bin_starts len width).tail.map (fun s => s - 1)) ++ [(len : ℤ)]

/-- Sum of the widths `end - start + 1` over paired position bins. -/
def width_sum (s e : List ℤ) : ℤ :=
  ((s.zip e).map (fun p => p.2 - p.1 + 1)).sum

/-- The multi-bin loop of `fill_matrices` (lines 558-564), recorded as the
list of `(position bin, credited bases)` writes:
`for j in range(read_start_loc, read_stop_loc + 1): overflow = read_stop - ends[j]; ...`.
`j` is the current bin, the `ℕ` fuel counts the remaining iterations of the
`range`, and `len` is the mutable `read_len`. -/
def split_credits (ends : List ℤ) (stop : ℤ) : ℕ → ℕ → ℤ → List (ℕ × ℤ)
  | _, 0, _ => []
  | j, k + 1, len =>
    let overflow := stop - ends.getD j 0
    if 0 < overflow then
      (j, len - overflow) :: split_credits ends stop (j + 1) k overflow
    else
      (j, len) :: split_credits ends stop (j + 1) k len

/-- The per-hit position crediting of `fill_matrices` (lines 546-564): the
list of `(position bin, credited bases)` writes performed for one hit.
`read_start_loc` and `read_stop_loc` are located with `bisect_left` on the
contig's bin ends; a hit inside one bin credits all of `read_len` there,
otherwise the span is split by the overflow loop. -/
def hit_credits (ends : List ℤ) (start stop : ℤ) : List (ℕ × ℤ) :=
  let len := stop - start + 1
  let sLoc := bisect_left ends start
  let tLoc := bisect_left ends stop
  if sLoc = tLoc then [(sLoc, len)]
  else split_credits ends stop sLoc (tLoc + 1 - sLoc) len

/-- Python sequence indexing for the identity row `read_id_index` of
`fill_matrices`: a non-negative index must be below the row count, a negative
index counts from the end (`m[-1]` is the last row); anything else raises
`IndexError`, modelled as `none`. -/
def py_row (rows : ℕ) (i : ℤ) : Option ℕ :=
  if 0 ≤ i then (if i < (rows : ℤ) then some i.toNat else none)
  else (if 0 ≤ (rows : ℤ) + i then some ((rows : ℤ) + i).toNat else none)

/-- The write `matrix[r][c] += amt` on a `List (List ℤ)` matrix; `none`
models the `IndexError` raised when an index is out of bounds. -/
def bump_cell (m : List (List ℤ)) (r c : ℕ) (amt : ℤ) : Option (List (List ℤ)) :=
  if r < m.length then
    let row := m.getD r []
    if c < row.length then some (m.set r (row.set c (row.getD c 0 + amt)))
    else none
  else none

/-- One iteration of the read loop of `fill_matrices` (lines 541-564) for a
hit already known to belong to a contig of the matrix: computes
`read_id_index = bisect.bisect_right(id_breaks, pct) - 1`, selects the
identity row by Python indexing (so `-1` is the last row), and performs the
per-bin `+=` writes listed by `hit_credits`.  `none` models `IndexError`. -/
def fill_read (breaks : List ℚ) (ends : List ℤ) (m : List (List ℤ))
    (pct : ℚ) (start stop : ℤ) : Option (List (List ℤ)) :=
  let idIdx : ℤ := (bisect_right breaks pct : ℤ) - 1
  match py_row m.length idIdx with
  | none => none
  | some r => (hit_credits ends start stop).foldlM (fun acc c => bump_cell acc r c.1 c.2) m

/-- Result of processing one alignment record in `save_reads_mapped`:
`raised` models an uncaught Python exception, `skip` a record dropped by a
`continue`, and `hit` a stored row. -/
inductive ParseResult (α : Type) where
  | raised : ParseResult α
  | skip : ParseResult α
  | hit : α → ParseResult α
deriving DecidableEq

/-- A stored hit row `(mag_id, contig_id, identity, start, stop)`. -/
abbrev Hit := ℕ × ℕ × ℚ × ℤ × ℤ

/-- Membership lookup in `contig_mag_corresp` restricted to the ids:
`contig_mag_corresp[contig] = [mag_name, mag_id, contig_id]`, keeping the
`(mag_id, contig_id)` part used by the record loops. -/
def lookup_corresp (corresp : List (List Char × ℕ × ℕ)) (c : List Char) : Option (ℕ × ℕ) :=
  (corresp.find? (fun r => decide (r.1 = c))).map (fun r => r.2)

/-- Whether a SAM field begins with the tag marker `MD:Z:`
(`mdz_seg.startswith("MD:Z:")`). -/
def has_mdz_head (f : List Char) : Bool :=
  match f with
  | 'M' :: 'D' :: ':' :: 'Z' :: ':' :: _ => true
  | _ => false

/-- Lines 226-233 of the source: starting from the last field and walking
toward the front, find the field that begins with `MD:Z:` and strip the
five marker characters (`mdz_seg = mdz_seg[5:]`).  `none` when no field
carries the tag, in which case the record is skipped. -/
def find_mdz (fields : List (List Char)) : Option (List Char) :=
  (fields.reverse.find? has_mdz_head).map (fun f => f.drop 5)

/-- Lines 234-237: `re.findall('[0-9]+', mdz_seg)` summed as integers.  The
accumulator `cur` is the digit run currently being read, `acc` the sum of
the completed runs. -/
def md_sum_aux : List Char → ℕ → ℕ → ℕ
  | [], cur, acc => acc + cur
  | c :: rest, cur, acc =>
    if c.isDigit then md_sum_aux rest (cur * 10 + (c.toNat - 48)) acc
    else md_sum_aux rest 0 (acc + cur)

/-- Sum of the digit runs of an `MD:Z:` tag value (the `sum` variable). -/
def md_sum (l : List Char) : ℕ := md_sum_aux l 0 0

/-- Line 238: the count of non-digit characters of the tag value,
`len(''.join([i for i in mdz_seg if not i.isdigit()]))`. -/
def md_mismatches (l : List Char) : ℕ :=
  (l.filter (fun c => !c.isDigit)).length

/-- Python `int()` on a string of decimal digits. -/
def parse_nat (l : List Char) : ℕ :=
  l.foldl (fun a c => a * 10 + (c.toNat - 48)) 0

/-- Python `float()` on a decimal literal `digits[.digits]`, exactly. -/
def parse_dec (l : List Char) : ℚ :=
  let ip := l.takeWhile (fun c => !(c = '.'))
  let fp := (l.dropWhile (fun c => !(c = '.'))).drop 1
  (parse_nat ip : ℚ) + (parse_nat fp : ℚ) / (10 : ℚ) ^ fp.length

/-- One record of the SAM branch of `save_reads_mapped` (lines 206-246), with
the record already split into whitespace fields.  The BAM branch (lines
260-303) computes the same values from the same tag string.  A record with
no `MD:Z:` field or with a reference contig outside `contig_mag_corresp` is
skipped; a tag whose `matches + mismatches` total is zero reaches
`pct_id = (sum/(total_count))*100` with a zero divisor and raises
`ZeroDivisionError`. -/
def sam_record (corresp : List (List Char × ℕ × ℕ)) (fields : List (List Char)) :
    ParseResult Hit :=
  match find_mdz fields with
  | none => .skip
  | some mdzv =>
    match lookup_corresp corresp (fields.getD 2 []) with
    | none => .skip
    | some (magId, cid) =>
      let s := md_sum mdzv
      let t := md_mismatches mdzv + s
      if t = 0 then .raised
      else
        let start : ℤ := (parse_nat (fields.getD 3 []) : ℤ)
        .hit (magId, cid, ((s : ℚ) / (t : ℚ)) * 100, start, start + (t : ℤ) - 1)

/-- Whether a blast line is a comment, `line.startswith("#")`. -/
def starts_hash (l : List Char) : Bool :=
  match l with
  | '#' :: _ => true
  | _ => false

/-- Python `line.split("\t")`. -/
def split_tab : List Char → List (List Char)
  | [] => [[]]
  | c :: rest =>
    match split_tab rest with
    | [] => [[c]]
    | h :: t => if c = '\t' then [] :: h :: t else (c :: h) :: t

/-- One line of the blast branch of `save_reads_mapped` (lines 165-192):
comment lines and lines whose column-2 contig is outside
`contig_mag_corresp` yield no hit; otherwise
`pct_id = float(segment[2])`, `pos1 = int(segment[8])`, `pos2 = int(segment[9])`,
`start = min(pos1, pos2)`, `end = start+(max(pos1, pos2)-min(pos1, pos2))`. -/
def blast_record (corresp : List (List Char × ℕ × ℕ)) (line : List Char) : Option Hit :=
  if starts_hash line then none
  else
    let seg := split_tab line
    match lookup_corresp corresp (seg.getD 1 []) with
    | none => none
    | some (magId, cid) =>
      let pct := parse_dec (seg.getD 2 [])
      let pos1 : ℤ := (parse_nat (seg.getD 8 []) : ℤ)
      let pos2 : ℤ := (parse_nat (seg.getD 9 []) : ℤ)
      let start := min pos1 pos2
      let e := start + (max pos1 pos2 - min pos1 pos2)
      some (magId, cid, pct, start, e)

/-- Association lookup in the `mag_ids` dictionary of `sqldb_creation`. -/
def lookup_assoc (l : List (List Char × ℕ)) (k : List Char) : Option ℕ :=
  (l.find? (fun r => decide (r.1 = k))).map (fun r => r.2)

/-- Lines 81-92 of `The contig - MAG pairs` loop of `sqldb_creation`: walks
the membership pairs `(contig_name, mag_name)`, assigning MAG ids in
first-seen order starting at 1 (the counter starts at 0 and is incremented
before use) and contig ids sequentially starting at 1, and produces the
`lookup_table` restricted to `(contig_name, mag_id, contig_id)`. -/
def catalog_loop : List (List Char × List Char) → List (List Char × ℕ) → ℕ → ℕ →
    List (List Char × ℕ × ℕ)
  | [], _, _, _ => []
  | (c, m) :: rest, magIds, magId, contigId =>
    match lookup_assoc magIds m with
    | some mid => (c, mid, contigId) :: catalog_loop rest magIds magId (contigId + 1)
    | none => (c, magId + 1, contigId) :: catalog_loop rest ((m, magId + 1) :: magIds) (magId + 1) (contigId + 1)

/-- The contig lookup relation built from the membership input. -/
def contig_info (pairs : List (List Char × List Char)) : List (List Char × ℕ × ℕ) :=
  catalog_loop pairs [] 0 1

/-- The point query
`SELECT mag_id, contig_id from lookup_table WHERE contig_name = ?` with
`fetchone` (line 102-104): `none` models the `None` row. -/
def lookup_contig (info : List (List Char × ℕ × ℕ)) (c : List Char) : Option (ℕ × ℕ) :=
  (info.find? (fun r => decide (r.1 = c))).map (fun r => r.2)

/-- The contig length join of `sqldb_creation` (lines 99-105): for each
`(contig, contig_len)` of the FASTA sizes, look the contig up in
`lookup_table` and collect `(mag_id, contig_id, contig_len)`.  When
`fetchone` returns `None`, the subscript `mag_contig_id[0]` raises
`TypeError` before anything is inserted, modelled as `none`. -/
def mag_info_rows (info : List (List Char × ℕ × ℕ)) :
    List (List Char × ℕ) → Option (List (ℕ × ℕ × ℕ))
  | [] => some []
  | (c, len) :: rest =>
    match lookup_contig info c with
    | none => none
    | some (mid, cid) => (mag_info_rows info rest).map (fun t => (mid, cid, len) :: t)

/-- State of the sample store: `sample_info` rows `(source name, n)` where
`n` is the numeric part of the opaque id `sample_<n>`, the per-sample hit
tables keyed by that number, the `mags_per_sample` rows, and the
`lookup_table` projected to `(contig_name, mag_name)`. -/
structure DB where
  sample_info : List (List Char × ℕ)
  hits : ℕ → List Hit
  mags_per_sample : List (List Char × List Char)
  lookup_rows : List (List Char × List Char)

/-- The `samples_dict` lookup of `add_sample` (lines 327-328): the dict maps
each `sample_name` to its `sample_id`; building it by iteration means a later
row wins, which the fold reproduces. -/
def lookup_sample (info : List (List Char × ℕ)) (name : List Char) : Option ℕ :=
  info.foldl (fun a r => if r.1 = name then some r.2 else a) none

/-- The `last_sample` scan of `add_sample` (lines 329-330) plus the `+ 1` of
line 369: the successor of the largest sample number. -/
def next_sample_number (info : List (List Char × ℕ)) : ℕ :=
  (info.foldl (fun a r => max a r.2) 0) + 1

/-- The `mags_in_sample` loop (lines 353-360): walk the `lookup_table` rows
`(contig_name, mag_name)` and append each MAG name whose contig was seen in
the sample, skipping names already collected. -/
def mags_loop (contigs : List (List Char)) :
    List (List Char × List Char) → List (List Char) → List (List Char)
  | [], acc => acc
  | (cname, mname) :: rest, acc =>
    if cname ∈ contigs then
      if mname ∈ acc then mags_loop contigs rest acc
      else mags_loop contigs rest (acc ++ [mname])
    else mags_loop contigs rest acc

/-- One iteration of `add_sample` (lines 337-391) for one alignment file.
`newHits` and `contigsSeen` stand for the result of `save_reads_mapped` on
that file.  An existing source name reuses its sample number: the hit table
is dropped and re-created with the new hits, the sample's `mags_per_sample`
rows are deleted and recomputed; a new source name allocates
`last_sample + 1`, fills its table and appends its rows. -/
def add_sample_one (db : DB) (name : List Char) (newHits : List Hit)
    (contigsSeen : List (List Char)) : DB :=
  match lookup_sample db.sample_info name with
  | some sid =>
    { db with
      hits := fun t => if t = sid then newHits else db.hits t,
      mags_per_sample :=
        (db.mags_per_sample.filter (fun r => !(r.1 = name : Bool)))
          ++ (mags_loop contigsSeen db.lookup_rows []).map (fun m => (name, m)) }
  | none =>
    let sid := next_sample_number db.sample_info
    { db with
      sample_info := db.sample_info ++ [(name, sid)],
      hits := fun t => if t = sid then newHits else db.hits t,
      mags_per_sample :=
        db.mags_per_sample
          ++ (mags_loop contigsSeen db.lookup_rows []).map (fun m => (name, m)) }

/-! Closed form of the identity-break loop. -/

theorem breaks_loop_stop (step lower : ℚ) (fuel : ℕ) (cur : ℚ) (h : ¬ lower < cur) :
    breaks_loop step lower fuel cur = [] := by
  cases fuel with
  | zero => rfl
  | succ n => simp [breaks_loop, h]

theorem breaks_loop_closed (step lower : ℚ) (m : ℕ) :
    ∀ (fuel : ℕ) (cur : ℚ), m ≤ fuel →
      (∀ k : ℕ, k < m → lower < cur - k * step) →
      ¬ lower < cur - m * step →
      breaks_loop step lower fuel cur = (List.range m).map (fun (k : ℕ) => cur - (k : ℚ) * step) := by
  induction m with
  | zero =>
    intro fuel cur _ _ hstop
    simp only [Nat.cast_zero, zero_mul, sub_zero] at hstop
    simp [breaks_loop_stop step lower fuel cur hstop]
  | succ m ih =>
    intro fuel cur hle hrun hstop
    obtain ⟨f, rfl⟩ : ∃ f, fuel = f + 1 := ⟨fuel - 1, by omega⟩
    have h0 : lower < cur := by simpa using hrun 0 (Nat.succ_pos m)
    have hrec := ih f (cur - step) (by omega)
      (fun k hk => by
        have h := hrun (k + 1) (by omega)
        push_cast at h ⊢
        linarith)
      (by
        intro hcon
        apply hstop
        push_cast at hcon ⊢
        linarith)
    rw [show breaks_loop step lower (f + 1) cur
          = if lower < cur then cur :: breaks_loop step lower f (cur - step) else [] from rfl,
      if_pos h0, hrec, List.range_succ_eq_map]
    refine List.cons_eq_cons.mpr ⟨by push_cast; ring, ?_⟩
    rw [List.map_map]
    refine List.map_congr_left (fun k hk => ?_)
    simp only [Function.comp_apply]
    push_cast
    ring

theorem id_breaks_eval :
    id_breaks (1/2) 70 = (List.range 60).map (fun (k : ℕ) => 141/2 + (k : ℚ) * (1/2)) := by
  have hdesc : breaks_loop (1/2) 70 4096 100
      = (List.range 60).map (fun (k : ℕ) => (100 : ℚ) - (k : ℚ) * (1/2)) := by
    apply breaks_loop_closed
    · omega
    · intro k hk
      have hk' : (k : ℚ) ≤ 59 := by exact_mod_cast Nat.lt_succ_iff.mp hk
      linarith
    · push_cast
      norm_num
  rw [id_breaks, hdesc]
  apply List.ext_getElem
  · simp
  · intro i h1 h2
    simp only [List.length_reverse, List.length_map, List.length_range] at h1 h2
    rw [List.getElem_reverse]
    simp only [List.length_map, List.length_range, List.getElem_map, List.getElem_range]
    have hcast : ((60 - 1 - i : ℕ) : ℚ) = 59 - (i : ℚ) := by
      have : (60 : ℕ) - 1 - i = 59 - i := rfl
      rw [this, Nat.cast_sub (by omega)]
      norm_num
    rw [hcast]
    ring

theorem bisect_right_breaks_70 : bisect_right (id_breaks (1/2) 70) 70 = 0 := by
  rw [id_breaks_eval, show (60 : ℕ) = 59 + 1 from rfl, List.range_succ_eq_map]
  simp only [List.map_cons]
  rw [bisect_right]
  norm_num

/-- C6: the identity-bin boundary list is built by stepping down from 100.0
by `identityBinStep` while strictly greater than `identityLowerBound` and
reversing to ascending order; for step `0.5` and lower bound `70` this gives
exactly the 60 ascending boundaries `70.5, 71.0, …, 100.0`, and `70.0`
itself is not a boundary. -/
theorem identity_bins_spec :
    id_breaks (1/2) 70 = (List.range 60).map (fun (k : ℕ) => 141/2 + (k : ℚ) * (1/2))
  ∧ (id_breaks (1/2) 70).length = 60
  ∧ (70 : ℚ) ∉ id_breaks (1/2) 70 := by
  refine ⟨id_breaks_eval, by rw [id_breaks_eval]; simp, ?_⟩
  rw [id_breaks_eval]
  intro hmem
  obtain ⟨k, _, hEq⟩ := List.mem_map.mp hmem
  have hk : (0 : ℚ) ≤ (k : ℚ) := Nat.cast_nonneg k
  linarith

/-- C1 (divergence witness): in `fill_matrices`, a hit whose `pct_identity`
equals `70.0`, below the lowest ascending boundary `70.5` of the bins built
from step `0.5` and lower bound `70`, gets `read_id_index = -1`; the code has
no guard for this, and the Python write `matrix[-1][...] += read_len`
deposits the hit's bases in the HIGHEST identity row instead of skipping the
hit.  Concretely, on a fresh 60-row one-bin matrix a hit `[1, 10]` at
identity 70.0 produces a matrix whose last row (the 100.0 bin) contains 10,
so the hit contributes base counts to a cell of the matrix. -/
theorem low_identity_hit_counted_in_top_bin :
    ((bisect_right (id_breaks (1/2) 70) 70 : ℤ) - 1 = -1)
  ∧ fill_read (id_breaks (1/2) 70) [10] (List.replicate 60 [(0 : ℤ)]) 70 1 10
      = some (List.replicate 59 [(0 : ℤ)] ++ [[10]]) := by
  have hb := bisect_right_breaks_70
  constructor
  · rw [hb]
    decide
  · simp only [fill_read, hb]
    decide

/-! Position-bin properties of `prepare_numpy_matrices`. -/

theorem num_bins_eq (len width : ℕ) : num_bins len width = max 1 (len / width) := by
  simp only [num_bins]
  split <;> omega

theorem num_bins_pos (len width : ℕ) : 0 < num_bins len width := by
  rw [num_bins_eq]
  omega

theorem width_sum_cons (rest : List ℤ) (a X : ℤ) :
    width_sum (a :: rest) ((rest.map (fun s => s - 1)) ++ [X]) = X - a + 1 := by
  induction rest generalizing a with
  | nil => simp [width_sum]
  | cons b r ih =>
    have hb := ih b
    simp only [width_sum, List.map_cons, List.cons_append, List.zip_cons_cons,
      List.sum_cons] at hb ⊢
    linarith

theorem getD_map_sub_one (l : List ℤ) (i : ℕ) (h : i < l.length) :
    (l.map (fun x => x - 1)).getD i 0 = l.getD i 0 - 1 := by
  rw [List.getD_eq_getElem (l.map fun x => x - 1) 0 (by simpa using h),
    List.getD_eq_getElem l 0 h, List.getElem_map]

theorem ends_contig (s : List ℤ) (X : ℤ) (i : ℕ) (h : i + 1 < s.length) :
    (((s.tail.map (fun x => x - 1)) ++ [X]).getD i 0) + 1 = s.getD (i + 1) 0 := by
  match s with
  | [] => simp at h
  | a :: rest =>
    have hi : i < rest.length := by simpa using h
    rw [List.tail_cons, List.getD_append _ _ _ _ (by simpa using hi),
      getD_map_sub_one rest i hi, List.getD_cons_succ]
    ring

theorem bin_starts_length (len width : ℕ) :
    (bin_starts len width).length = max 1 (len / width) := by
  simp [bin_starts, num_bins_eq]

theorem bin_starts_first (len width : ℕ) : (bin_starts len width).getD 0 0 = 1 := by
  obtain ⟨n, hn⟩ : ∃ n, num_bins len width = n + 1 :=
    ⟨num_bins len width - 1, by have := num_bins_pos len width; omega⟩
  rw [bin_starts, hn, List.range_succ_eq_map]
  simp

/-- C7: for every contig of length `L > 0` and width `W > 0`, the builder
produces exactly `max 1 (L / W)` position bins whose first start is 1, whose
last end is exactly `L`, which are contiguous (`end i + 1 = start (i+1)`),
and whose widths `end i - start i + 1` sum to `L`; a contig shorter than the
bin width gets the single bin `[1, L]`. -/
theorem position_bins_spec (L W : ℕ) (hL : 0 < L) (hW : 0 < W) :
    (bin_starts L W).length = max 1 (L / W)
  ∧ (bin_starts L W).getD 0 0 = 1
  ∧ (bin_ends L W).getLast? = some (L : ℤ)
  ∧ (∀ i : ℕ, i + 1 < (bin_starts L W).length →
      (bin_ends L W).getD i 0 + 1 = (bin_starts L W).getD (i + 1) 0)
  ∧ width_sum (bin_starts L W) (bin_ends L W) = (L : ℤ)
  ∧ (L < W → bin_starts L W = [1] ∧ bin_ends L W = [(L : ℤ)]) := by
  have hfirst := bin_starts_first L W
  have hlen := bin_starts_length L W
  have hne : bin_starts L W ≠ [] := by
    intro hcon
    rw [hcon] at hlen
    simp at hlen
    omega
  refine ⟨hlen, hfirst, by simp [bin_ends], ?_, ?_, ?_⟩
  · intro i hi
    rw [bin_ends]
    exact ends_contig (bin_starts L W) (L : ℤ) i hi
  · obtain ⟨a, rest, hs⟩ := List.exists_cons_of_ne_nil hne
    have ha : a = 1 := by
      rw [hs] at hfirst
      simpa using hfirst
    rw [bin_ends, hs, ha, List.tail_cons, width_sum_cons]
    ring
  · intro hLW
    have hn1 : num_bins L W = 1 := by
      rw [num_bins_eq, Nat.div_eq_of_lt hLW]
      omega
    have hstarts : bin_starts L W = [1] := by
      rw [bin_starts, hn1, show List.range 1 = [0] from rfl]
      norm_num
    exact ⟨hstarts, by rw [bin_ends, hstarts]; simp⟩

/-- Witness for C7 at the spec's scenario `L = 2350`, `W = 1000`: the
hypotheses hold and the bins cover the contig exactly. -/
theorem position_bins_spec_witness :
    (0 < 2350 ∧ 0 < 1000)
  ∧ (bin_starts 2350 1000).length = max 1 (2350 / 1000)
  ∧ width_sum (bin_starts 2350 1000) (bin_ends 2350 1000) = (2350 : ℤ) :=
  ⟨⟨by decide, by decide⟩, (position_bins_spec 2350 1000 (by decide) (by decide)).1,
    (position_bins_spec 2350 1000 (by decide) (by decide)).2.2.2.2.1⟩

/-! Conservation of credited bases in `fill_matrices`. -/

theorem getD_lt_of_lt_bisect_left (l : List ℤ) (x : ℤ) :
    ∀ j : ℕ, j < bisect_left l x → l.getD j 0 < x := by
  induction l with
  | nil => intro j h; simp [bisect_left] at h
  | cons a rest ih =>
    intro j h
    rw [bisect_left] at h
    by_cases ha : a < x
    · rw [if_pos ha] at h
      cases j with
      | zero => simpa using ha
      | succ j' => simpa using ih j' (by omega)
    · rw [if_neg ha] at h
      omega

theorem le_getD_bisect_left (l : List ℤ) (x : ℤ) :
    bisect_left l x < l.length → x ≤ l.getD (bisect_left l x) 0 := by
  induction l with
  | nil => intro h; simp [bisect_left] at h
  | cons a rest ih =>
    intro h
    by_cases ha : a < x
    · rw [bisect_left, if_pos ha] at h ⊢
      simpa using ih (by simpa using h)
    · rw [bisect_left, if_neg ha]
      simpa using not_lt.mp ha

theorem bisect_left_mono (l : List ℤ) (x y : ℤ) (hxy : x ≤ y) :
    bisect_left l x ≤ bisect_left l y := by
  induction l with
  | nil => simp [bisect_left]
  | cons a rest ih =>
    rw [bisect_left, bisect_left]
    by_cases ha : a < x
    · rw [if_pos ha, if_pos (lt_of_lt_of_le ha hxy)]
      omega
    · rw [if_neg ha]
      omega

theorem bisect_left_lt_length (l : List ℤ) (x last : ℤ)
    (hlast : l.getLast? = some last) (hx : x ≤ last) :
    bisect_left l x < l.length := by
  induction l with
  | nil => simp at hlast
  | cons a rest ih =>
    match rest with
    | [] =>
      have ha : a = last := by simpa using hlast
      rw [bisect_left, if_neg (by omega)]
      simp
    | b :: r =>
      rw [List.getLast?_cons_cons] at hlast
      have hr := ih hlast
      rw [bisect_left]
      by_cases ha : a < x
      · rw [if_pos ha]
        simpa [Nat.succ_lt_succ_iff] using hr
      · rw [if_neg ha]
        simp

theorem split_credits_fst (ends : List ℤ) (stop : ℤ) :
    ∀ (k j : ℕ) (len : ℤ), (split_credits ends stop j k len).map Prod.fst = List.range' j k := by
  intro k
  induction k with
  | zero => intro j len; rfl
  | succ k' ih =>
    intro j len
    rw [split_credits]
    by_cases h : 0 < stop - ends.getD j 0
    · rw [if_pos h]
      simp only [List.map_cons]
      rw [ih, List.range'_succ]
    · rw [if_neg h]
      simp only [List.map_cons]
      rw [ih, List.range'_succ]

theorem split_credits_sum (ends : List ℤ) (stop : ℤ) :
    ∀ (k j : ℕ) (len : ℤ), 0 < k →
      (∀ i : ℕ, j ≤ i → i < j + k - 1 → ends.getD i 0 < stop) →
      stop ≤ ends.getD (j + k - 1) 0 →
      ((split_credits ends stop j k len).map Prod.snd).sum = len := by
  intro k
  induction k with
  | zero => omega
  | succ k' ih =>
    intro j len _ hrun hlastbin
    match k' with
    | 0 =>
      have hno : ¬ 0 < stop - ends.getD j 0 := by
        have := hlastbin
        simp only [Nat.add_sub_cancel] at this
        omega
      rw [split_credits, if_neg hno]
      simp [split_credits]
    | k'' + 1 =>
      have hj : ends.getD j 0 < stop := hrun j le_rfl (by omega)
      rw [split_credits, if_pos (by omega)]
      simp only [List.map_cons, List.sum_cons]
      rw [ih (j + 1) (stop - ends.getD j 0) (by omega)
        (fun i hi1 hi2 => hrun i (by omega) (by omega))
        (by
          have : j + 1 + (k'' + 1) - 1 = j + (k'' + 1 + 1) - 1 := by omega
          rw [this]
          exact hlastbin)]
      ring

/-- C2: for every hit accepted by `fill_matrices` (start before stop, stop
not past the contig's last bin end), the per-bin credited bases listed by
`hit_credits` sum to `read_len = stop - start + 1`, and no position bin is
credited twice — in both the same-bin case and the multi-bin splitting
case. -/
theorem credited_bases_conserved (ends : List ℤ) (start stop last : ℤ)
    (hss : start ≤ stop) (hlast : ends.getLast? = some last) (hstop : stop ≤ last) :
    (((hit_credits ends start stop).map Prod.snd).sum = stop - start + 1)
  ∧ ((hit_credits ends start stop).map Prod.fst).Nodup := by
  rw [hit_credits]
  by_cases heq : bisect_left ends start = bisect_left ends stop
  · rw [if_pos heq]
    simp
  · rw [if_neg heq]
    have hmono := bisect_left_mono ends start stop hss
    have hlt : bisect_left ends start < bisect_left ends stop := by omega
    have htlen : bisect_left ends stop < ends.length :=
      bisect_left_lt_length ends stop last hlast hstop
    have hidx : bisect_left ends start + (bisect_left ends stop + 1 - bisect_left ends start) - 1
        = bisect_left ends stop := by omega
    constructor
    · refine split_credits_sum ends stop _ _ _ (by omega) (fun i hi1 hi2 => ?_) ?_
      · exact getD_lt_of_lt_bisect_left ends stop i (by omega)
      · rw [hidx]
        exact le_getD_bisect_left ends stop htlen
    · rw [split_credits_fst]
      exact List.nodup_range' _ _

/-- Witness for C2: the hit `start = 1170, stop = 1179` on the two bins of a
2350-long contig (ends 1174 and 2350) splits into 5 + 5 = 10 bases with no
bin credited twice. -/
theorem credited_bases_conserved_witness :
    ((1170 : ℤ) ≤ 1179 ∧ ([(1174 : ℤ), 2350].getLast? = some 2350) ∧ (1179 : ℤ) ≤ 2350)
  ∧ (((hit_credits [1174, 2350] 1170 1179).map Prod.snd).sum = 1179 - 1170 + 1)
  ∧ ((hit_credits [1174, 2350] 1170 1179).map Prod.fst).Nodup :=
  ⟨⟨by decide, by decide, by decide⟩,
    (credited_bases_conserved [1174, 2350] 1170 1179 2350 (by decide) (by decide) (by decide)).1,
    (credited_bases_conserved [1174, 2350] 1170 1179 2350 (by decide) (by decide) (by decide)).2⟩

/-! Record parsing. -/

/-- C3 (divergence witness): a SAM record whose `MD:Z:` tag value is `"0"`
has `matches + mismatches = 0`; the unguarded
`pct_id = (sum/(total_count))*100` of `save_reads_mapped` divides by zero
and the record loop raises `ZeroDivisionError` instead of skipping the
record non-fatally.  The BAM branch computes the same expression from the
same tag value and raises identically. -/
theorem sam_zero_total_raises :
    (md_sum ['0'] + md_mismatches ['0'] = 0)
  ∧ sam_record [(['c','1'], 1, 1)]
      [['r','1'], ['0'], ['c','1'], ['7'], ['M','D',':','Z',':','0']]
      = ParseResult.raised := by
  exact ⟨by decide, by decide⟩

/-- C4: every retained tagged-text record stores the hit whose
`pct_identity` is `100 × matches / (matches + mismatches)` — `matches` the
sum of the digit runs of the tag value found by scanning fields from the
end, `mismatches` its count of non-digit characters — with `start` the
record's fourth-column mapped position and
`end = start + matches + mismatches - 1`. -/
theorem sam_record_spec (corresp : List (List Char × ℕ × ℕ)) (fields : List (List Char))
    (mdzv : List Char) (magId cid : ℕ)
    (h1 : find_mdz fields = some mdzv)
    (h2 : lookup_corresp corresp (fields.getD 2 []) = some (magId, cid))
    (h3 : md_sum mdzv + md_mismatches mdzv ≠ 0) :
    sam_record corresp fields = ParseResult.hit (magId, cid,
      100 * (md_sum mdzv : ℚ) / ((md_sum mdzv : ℚ) + (md_mismatches mdzv : ℚ)),
      (parse_nat (fields.getD 3 []) : ℤ),
      (parse_nat (fields.getD 3 []) : ℤ) + ((md_sum mdzv : ℤ) + (md_mismatches mdzv : ℤ)) - 1) := by
  simp only [sam_record, h1, h2]
  rw [if_neg (by omega)]
  simp only [ParseResult.hit.injEq, Prod.mk.injEq]
  refine ⟨trivial, trivial, ?_, trivial, ?_⟩
  · have hq : ((md_mismatches mdzv + md_sum mdzv : ℕ) : ℚ)
        = (md_sum mdzv : ℚ) + (md_mismatches mdzv : ℚ) := by
      push_cast
      ring
    rw [hq]
    ring
  · push_cast
    ring

/-- Witness inputs for C4: a record whose `MD:Z:10A5` field is not the last
field, so the backward scan must walk past `AS`. -/
def sam_test_corresp : List (List Char × ℕ × ℕ) := [(['c','1'], 1, 1)]

/-- Witness record for C4. -/
def sam_test_fields : List (List Char) :=
  [['r','1'], ['0'], ['c','1'], ['7'], ['M','D',':','Z',':','1','0','A','5'], ['A','S']]

/-- Witness for C4: the spec's `"10A5"` scenario — matches 15, mismatches 1,
identity `93.75 = 375/4`, `end = 7 + 15 = 22 = start + 15`. -/
theorem sam_record_spec_witness :
    (find_mdz sam_test_fields = some ['1','0','A','5']
      ∧ lookup_corresp sam_test_corresp (sam_test_fields.getD 2 []) = some (1, 1)
      ∧ md_sum ['1','0','A','5'] + md_mismatches ['1','0','A','5'] ≠ 0)
  ∧ sam_record sam_test_corresp sam_test_fields
      = ParseResult.hit (1, 1, 375/4, 7, 22) := by
  refine ⟨⟨by decide, by decide, by decide⟩, ?_⟩
  rw [sam_record_spec sam_test_corresp sam_test_fields ['1','0','A','5'] 1 1
    (by decide) (by decide) (by decide)]
  rw [show md_sum ['1','0','A','5'] = 15 from by decide,
    show md_mismatches ['1','0','A','5'] = 1 from by decide,
    show parse_nat (sam_test_fields.getD 3 []) = 7 from by decide]
  simp only [ParseResult.hit.injEq, Prod.mk.injEq]
  norm_num

/-- C9: a non-comment tabular line whose column-2 contig is in the catalog
yields exactly one hit taking `pct_identity` directly from column 3 and
`start`/`stop` as the min/max of columns 9 and 10 (so `start ≤ stop`); a
line whose contig is absent yields no hit and no error. -/
theorem blast_record_spec (corresp : List (List Char × ℕ × ℕ)) :
    (∀ (line : List Char) (magId cid : ℕ),
      starts_hash line = false →
      lookup_corresp corresp ((split_tab line).getD 1 []) = some (magId, cid) →
      blast_record corresp line = some (magId, cid,
          parse_dec ((split_tab line).getD 2 []),
          min ((parse_nat ((split_tab line).getD 8 []) : ℤ)) ((parse_nat ((split_tab line).getD 9 []) : ℤ)),
          max ((parse_nat ((split_tab line).getD 8 []) : ℤ)) ((parse_nat ((split_tab line).getD 9 []) : ℤ)))
        ∧ min ((parse_nat ((split_tab line).getD 8 []) : ℤ)) ((parse_nat ((split_tab line).getD 9 []) : ℤ))
            ≤ max ((parse_nat ((split_tab line).getD 8 []) : ℤ)) ((parse_nat ((split_tab line).getD 9 []) : ℤ)))
  ∧ (∀ line : List Char,
      starts_hash line = false →
      lookup_corresp corresp ((split_tab line).getD 1 []) = none →
      blast_record corresp line = none) := by
  constructor
  · intro line magId cid hc hl
    refine ⟨?_, min_le_max⟩
    simp only [blast_record, hc, Bool.false_eq_true, if_false, hl]
    simp only [Option.some.injEq, Prod.mk.injEq]
    refine ⟨trivial, trivial, trivial, trivial, ?_⟩
    omega
  · intro line hc hl
    simp only [blast_record, hc, Bool.false_eq_true, if_false, hl]

/-- Witness catalog for C9. -/
def blast_test_corresp : List (List Char × ℕ × ℕ) := [(['c','t','g','A'], 1, 1)]

/-- Witness line for C9 (the spec's scenario). -/
def blast_test_line : List Char := "q1\tctgA\t98.5\t1\t2\t3\t4\t5\t100\t150".toList

/-- Witness line for C9 whose contig is not in the catalog. -/
def blast_test_line_miss : List Char := "q1\tctgX\t98.5\t1\t2\t3\t4\t5\t100\t150".toList

/-- Witness for C9: the catalogued line yields the hit
`(1, 1, 98.5, 100, 150)`; the unlisted contig yields no hit. -/
theorem blast_record_spec_witness :
    (starts_hash blast_test_line = false
      ∧ lookup_corresp blast_test_corresp ((split_tab blast_test_line).getD 1 []) = some (1, 1))
  ∧ blast_record blast_test_corresp blast_test_line = some (1, 1, 197/2, 100, 150)
  ∧ blast_record blast_test_corresp blast_test_line_miss = none := by
  refine ⟨⟨by decide, by decide⟩, ?_, ?_⟩
  · rw [((blast_record_spec blast_test_corresp).1 blast_test_line 1 1 (by decide) (by decide)).1]
    rw [show (split_tab blast_test_line).getD 2 [] = ['9','8','.','5'] from by decide,
      show parse_nat ((split_tab blast_test_line).getD 8 []) = 100 from by decide,
      show parse_nat ((split_tab blast_test_line).getD 9 []) = 150 from by decide]
    have hdec : parse_dec ['9','8','.','5'] = 197/2 := by
      rw [parse_dec,
        show (['9','8','.','5'].takeWhile (fun c => !(c = '.'))) = ['9','8'] from by decide,
        show ((['9','8','.','5'].dropWhile (fun c => !(c = '.'))).drop 1) = ['5'] from by decide,
        show parse_nat ['9','8'] = 98 from by decide,
        show parse_nat ['5'] = 5 from by decide]
      norm_num
    rw [hdec]
    simp only [Option.some.injEq, Prod.mk.injEq]
    norm_num
  · exact (blast_record_spec blast_test_corresp).2 blast_test_line_miss (by decide) (by decide)

/-! Catalog construction. -/

theorem mag_info_rows_fails (info : List (List Char × ℕ × ℕ)) :
    ∀ sizes : List (List Char × ℕ),
      (∃ p ∈ sizes, lookup_contig info p.1 = none) →
      mag_info_rows info sizes = none := by
  intro sizes
  induction sizes with
  | nil => simp
  | cons q rest ih =>
    intro ⟨p, hp, hnone⟩
    obtain ⟨c, len⟩ := q
    rcases List.mem_cons.mp hp with hhead | htail
    · rw [mag_info_rows]
      subst hhead
      rw [hnone]
    · rw [mag_info_rows]
      match hl : lookup_contig info c with
      | none => rfl
      | some (mid, cid) =>
        rw [ih ⟨p, htail, hnone⟩]
        rfl

theorem mag_info_rows_succeeds (info : List (List Char × ℕ × ℕ)) :
    ∀ sizes : List (List Char × ℕ),
      (∀ p ∈ sizes, (lookup_contig info p.1).isSome) →
      ∃ rows, mag_info_rows info sizes = some rows ∧ rows.length = sizes.length := by
  intro sizes
  induction sizes with
  | nil => exact fun _ => ⟨[], rfl, rfl⟩
  | cons q rest ih =>
    intro hall
    obtain ⟨c, len⟩ := q
    obtain ⟨rows, hrows, hlen⟩ := ih (fun p hp => hall p (List.mem_cons_of_mem _ hp))
    have hc := hall (c, len) (List.mem_cons_self _ _)
    match hl : lookup_contig info (c, len).1 with
    | none => rw [hl] at hc; simp at hc
    | some (mid, cid) =>
      refine ⟨(mid, cid, len) :: rows, ?_, by simp [hlen]⟩
      rw [mag_info_rows, hl, hrows]
      rfl

/-- Membership input for the C5 counterexample: contig `c2` belongs to MAG
`m1` in the membership file but has no entry in the contig-lengths input. -/
def c5_membership : List (List Char × List Char) :=
  [(['c','1'], ['m','1']), (['c','2'], ['m','1'])]

/-- Contig-lengths input for the C5 counterexample: only `c1` has a length. -/
def c5_sizes : List (List Char × ℕ) := [(['c','1'], 100)]

/-- Counterexample to C5 as stated: `c2` is listed in the membership input
and absent from the contig-lengths input, yet catalog construction does NOT
fail — the length join succeeds and silently omits `c2`, because the join
iterates over the lengths input and looks each contig up in the membership
lookup relation, not the other way around. -/
theorem catalog_missing_length_no_error :
    (∃ p ∈ c5_membership, p.1 = ['c','2'])
  ∧ (∀ p ∈ c5_sizes, p.1 ≠ ['c','2'])
  ∧ mag_info_rows (contig_info c5_membership) c5_sizes = some [(1, 1, 100)] := by
  exact ⟨by decide, by decide, by decide⟩

/-- C5 as amended: catalog construction fails at length-join time (the
`fetchone` result is `None` and subscripting it raises) when some contig of
the contig-lengths input has no entry in the membership lookup relation —
the converse direction of the claim's wording. -/
theorem catalog_unknown_contig_fails (info : List (List Char × ℕ × ℕ))
    (sizes : List (List Char × ℕ))
    (h : ∃ p ∈ sizes, lookup_contig info p.1 = none) :
    mag_info_rows info sizes = none :=
  mag_info_rows_fails info sizes h

/-- Witness for the amended C5: a lengths entry `c9` absent from the
membership-derived lookup relation aborts the join. -/
theorem catalog_unknown_contig_fails_witness :
    (∃ p ∈ [((['c','9'] : List Char), (5 : ℕ))],
        lookup_contig (contig_info c5_membership) p.1 = none)
  ∧ mag_info_rows (contig_info c5_membership) [(['c','9'], 5)] = none :=
  ⟨by decide, catalog_unknown_contig_fails (contig_info c5_membership) [(['c','9'], 5)] (by decide)⟩

/-- C10: a contig present in the contig-lengths input but absent from the
membership input makes the build fail with an uncaught error before any
contig-length row is produced, whereas a contig present in membership but
missing from the lengths input is silently omitted: the join succeeds and
produces exactly one row per lengths entry. -/
theorem catalog_asymmetry (info : List (List Char × ℕ × ℕ)) (sizes : List (List Char × ℕ)) :
    ((∃ p ∈ sizes, lookup_contig info p.1 = none) → mag_info_rows info sizes = none)
  ∧ ((∀ p ∈ sizes, (lookup_contig info p.1).isSome) →
      ∃ rows, mag_info_rows info sizes = some rows ∧ rows.length = sizes.length) :=
  ⟨mag_info_rows_fails info sizes, mag_info_rows_succeeds info sizes⟩

/-- Witness for C10, instantiating both directions: adding an unknown `c9`
to the lengths fails the build; omitting `c2` from the lengths silently
yields one row for the single lengths entry. -/
theorem catalog_asymmetry_witness :
    mag_info_rows (contig_info c5_membership) [(['c','1'], 100), (['c','9'], 5)] = none
  ∧ ∃ rows, mag_info_rows (contig_info c5_membership) c5_sizes = some rows
      ∧ rows.length = c5_sizes.length :=
  ⟨(catalog_asymmetry (contig_info c5_membership) [(['c','1'], 100), (['c','9'], 5)]).1 (by decide),
    (catalog_asymmetry (contig_info c5_membership) c5_sizes).2 (by decide)⟩

/-! Sample re-ingestion. -/

/-- C8: re-ingesting an alignment file whose source name already has a row
in `sample_info` reuses the existing sample number (no `sample_info` change),
replaces that sample's hit table with exactly the newly parsed hits, leaves
every other sample's hit table untouched, and fully replaces the sample's
`mags_per_sample` rows while preserving all other samples' rows. -/
theorem add_sample_replaces (db : DB) (name : List Char) (newHits : List Hit)
    (seen : List (List Char)) (sid : ℕ)
    (h : lookup_sample db.sample_info name = some sid) :
    (add_sample_one db name newHits seen).sample_info = db.sample_info
  ∧ (add_sample_one db name newHits seen).hits sid = newHits
  ∧ (∀ t : ℕ, t ≠ sid → (add_sample_one db name newHits seen).hits t = db.hits t)
  ∧ (add_sample_one db name newHits seen).mags_per_sample.filter (fun r => (r.1 = name : Bool))
      = (mags_loop seen db.lookup_rows []).map (fun m => (name, m))
  ∧ (add_sample_one db name newHits seen).mags_per_sample.filter (fun r => !(r.1 = name : Bool))
      = db.mags_per_sample.filter (fun r => !(r.1 = name : Bool)) := by
  simp only [add_sample_one, h]
  refine ⟨trivial, by simp, fun t ht => by simp [ht], ?_, ?_⟩
  · rw [List.filter_append]
    rw [List.filter_filter]
    have h1 : (db.mags_per_sample.filter
        (fun r => (r.1 = name : Bool) && !(r.1 = name : Bool))) = [] := by
      simp
    have h2 : ((mags_loop seen db.lookup_rows []).map (fun m => (name, m))).filter
        (fun r => (r.1 = name : Bool)) = (mags_loop seen db.lookup_rows []).map (fun m => (name, m)) := by
      rw [List.filter_eq_self]
      intro a ha
      obtain ⟨m, _, rfl⟩ := List.mem_map.mp ha
      simp
    rw [h1, h2]
    simp
  · rw [List.filter_append, List.filter_filter]
    have h1 : ((mags_loop seen db.lookup_rows []).map (fun m => (name, m))).filter
        (fun r => !(r.1 = name : Bool)) = [] := by
      rw [List.filter_eq_nil_iff]
      intro a ha
      obtain ⟨m, _, rfl⟩ := List.mem_map.mp ha
      simp
    rw [h1]
    simp

/-- Witness store for C8: two samples with one stored hit each. -/
def c8_db : DB where
  sample_info := [(['f','1'], 1), (['f','2'], 2)]
  hits := fun t => if t = 1 then [(1, 1, 99, 10, 20)] else if t = 2 then [(2, 2, 98, 5, 9)] else []
  mags_per_sample := [(['f','1'], ['m','1']), (['f','2'], ['m','2'])]
  lookup_rows := [(['c','1'], ['m','1']), (['c','2'], ['m','2'])]

/-- Witness for C8: re-ingesting `f1` with one new hit to contig `c2`
replaces its table and membership rows and leaves `f2` alone. -/
theorem add_sample_replaces_witness :
    lookup_sample c8_db.sample_info ['f','1'] = some 1
  ∧ ((add_sample_one c8_db ['f','1'] [(2, 2, 97, 1, 4)] [['c','2']]).sample_info
        = c8_db.sample_info
    ∧ (add_sample_one c8_db ['f','1'] [(2, 2, 97, 1, 4)] [['c','2']]).hits 1 = [(2, 2, 97, 1, 4)]
    ∧ (∀ t : ℕ, t ≠ 1 → (add_sample_one c8_db ['f','1'] [(2, 2, 97, 1, 4)] [['c','2']]).hits t
        = c8_db.hits t)
    ∧ (add_sample_one c8_db ['f','1'] [(2, 2, 97, 1, 4)] [['c','2']]).mags_per_sample.filter
          (fun r => (r.1 = ['f','1'] : Bool))
        = (mags_loop [['c','2']] c8_db.lookup_rows []).map (fun m => (['f','1'], m))
    ∧ (add_sample_one c8_db ['f','1'] [(2, 2, 97, 1, 4)] [['c','2']]).mags_per_sample.filter
          (fun r => !(r.1 = ['f','1'] : Bool))
        = c8_db.mags_per_sample.filter (fun r => !(r.1 = ['f','1'] : Bool))) :=
  ⟨by decide, add_sample_replaces c8_db ['f','1'] [(2, 2, 97, 1, 4)] [['c','2']] 1 (by decide)⟩

end Recplot
